import Mathlib

/-!
# Verification of the ESM2 contact-map pipeline notebook

A shallow embedding of `acids_classification.ipynb`.  Python/numpy values are
modelled exactly: float arrays become lists of rationals, numpy matrices become
lists of rows, exceptions become `Option.none`/`Except.error`.  The notebook's
functions `download_pdb_files`, `extract_sequence_and_contacts`, the loading
loop, the train/val/test split cell, `ProteinDataset.__getitem__`,
`ContactPredictionModel.forward` and `find_similar_structures` are each
translated below, and the stated properties of the specification are proved or
refuted about the translations.

Where the split cell multiplies the Python floats `0.7` and `0.85` by an
integer, the binary64 arithmetic is modelled exactly (correct rounding to a
53-bit significand, ties to even), because the result visibly differs from
exact rational arithmetic (`int(0.7 * 90) = 62` while `⌊0.7 · 90⌋ = 63`).
-/

namespace ESM2Pipeline

/-- A parsed PDB atom: atom name, residue name and 3D coordinates
(coordinates modelled as exact rationals). -/
structure Atom where
  name : String
  resname : String
  x : ℚ
  y : ℚ
  z : ℚ
deriving DecidableEq

/-- `structure.select('name CA')` — the CA atoms of the structure in order. -/
def selectCA (atoms : List Atom) : List Atom :=
  atoms.filter fun a => a.name == "CA"

/-- `structure.numAtoms()`. -/
def numAtoms (atoms : List Atom) : ℕ :=
  atoms.length

/-- `Bio.PDB.Polypeptide.three_to_one` — the standard 20 amino-acid
three-letter codes; `none` models the `KeyError` raised on any other name. -/
def three_to_one (resname : String) : Option Char :=
  match resname with
  | "ALA" => some 'A'
  | "ARG" => some 'R'
  | "ASN" => some 'N'
  | "ASP" => some 'D'
  | "CYS" => some 'C'
  | "GLN" => some 'Q'
  | "GLU" => some 'E'
  | "GLY" => some 'G'
  | "HIS" => some 'H'
  | "ILE" => some 'I'
  | "LEU" => some 'L'
  | "LYS" => some 'K'
  | "MET" => some 'M'
  | "PHE" => some 'F'
  | "PRO" => some 'P'
  | "SER" => some 'S'
  | "THR" => some 'T'
  | "TRP" => some 'W'
  | "TYR" => some 'Y'
  | "VAL" => some 'V'
  | _ => none

/-- Squared Euclidean distance between the coordinates of two atoms. -/
def distSq (a b : Atom) : ℚ :=
  (a.x - b.x) ^ 2 + (a.y - b.y) ^ 2 + (a.z - b.z) ^ 2

/-- A numpy 2-D float array, modelled as a list of rows of exact rationals. -/
abbrev CMap := List (List ℚ)

/-- Entry `(i, j)` of a matrix (out-of-range reads default to `0`, used only
in-range in the theorems below). -/
def entry (m : CMap) (i j : ℕ) : ℚ :=
  (m.getD i []).getD j 0

/-- `(buildDistMatrix(coords, coords) < 8.0).astype(np.float32)` — the entry at
`(i, j)` is `1` when the distance between atoms `i` and `j` is below `8`,
equivalently when the squared distance is below `64`, else `0`. -/
def contactMap (cas : List Atom) : CMap :=
  cas.map fun a => cas.map fun b => if distSq a b < 64 then 1 else 0

/-- `extract_sequence_and_contacts`.  The argument is the outcome of
`parsePDB` on the file: `none` when parsing (or anything else inside the
`try` block) raised, `some atoms` when it produced a structure.  The result is
`none` for the Python return value `(None, None)` (also produced by the
surrounding `except` clause), `some (seq, cmap)` otherwise.  Unknown residue
names contribute `'X'` to the sequence (the `except KeyError` branch). -/
def extract_sequence_and_contacts (parsed : Option (List Atom)) :
    Option (String × CMap) :=
  match parsed with
  | none => none
  | some atoms =>
    let ca_atoms := selectCA atoms
    if ca_atoms.isEmpty then none
    else if 10000 < numAtoms atoms then none
    else
      some (String.mk (ca_atoms.map fun a => (three_to_one a.resname).getD 'X'),
        contactMap ca_atoms)

/-- One iteration of the loading loop of cell 12: append the extracted
sequence and contact map when extraction succeeded, keep the lists unchanged
otherwise. -/
def loadStep (acc : List String × List CMap) (f : Option (List Atom)) :
    List String × List CMap :=
  match extract_sequence_and_contacts f with
  | some (seq, cmap) => (acc.1 ++ [seq], acc.2 ++ [cmap])
  | none => acc

/-- The loading loop of cell 12 over the (parse outcomes of the) existing PDB
files, starting from the empty lists `sequences = []`, `contact_maps = []`. -/
def loadData (files : List (Option (List Atom))) : List String × List CMap :=
  files.foldl loadStep ([], [])

/-- `ProteinDataset.__getitem__` restricted to its checking behaviour: the
`assert` comparing the number of embedding rows with the contact-map side;
`none` models the raised `AssertionError`. -/
def getitem (embedding : List (List ℚ)) (contact_map : CMap) :
    Option (List (List ℚ) × CMap) :=
  if embedding.length = contact_map.length then some (embedding, contact_map)
  else none

/-! ## Basic lemmas about extraction -/

theorem extract_some_eq (atoms : List Atom) :
    extract_sequence_and_contacts (some atoms) =
      if (selectCA atoms).isEmpty then none
      else if 10000 < numAtoms atoms then none
      else
        some (String.mk ((selectCA atoms).map fun a =>
            (three_to_one a.resname).getD 'X'),
          contactMap (selectCA atoms)) := rfl

theorem extract_some_iff (atoms : List Atom) (p : String × CMap) :
    extract_sequence_and_contacts (some atoms) = some p ↔
      ¬ (selectCA atoms).isEmpty ∧ numAtoms atoms ≤ 10000 ∧
        p = (String.mk ((selectCA atoms).map fun a =>
              (three_to_one a.resname).getD 'X'),
            contactMap (selectCA atoms)) := by
  rw [extract_some_eq]
  split_ifs with h1 h2
  · simp [h1]
  · simp [h1, h2]
  · constructor
    · intro h
      refine ⟨h1, by omega, ?_⟩
      exact (Option.some_inj.mp h).symm
    · intro ⟨_, _, h⟩
      rw [h]

theorem contactMap_row (cas : List Atom) (i : ℕ) (hi : i < cas.length) :
    (contactMap cas).getD i [] =
      cas.map fun b => if distSq (cas.get ⟨i, hi⟩) b < 64 then 1 else 0 := by
  unfold contactMap
  rw [List.getD_eq_getElem _ _ (by simpa using hi), List.getElem_map]
  simp

theorem entry_contactMap (cas : List Atom) (i j : ℕ)
    (hi : i < cas.length) (hj : j < cas.length) :
    entry (contactMap cas) i j =
      if distSq (cas.get ⟨i, hi⟩) (cas.get ⟨j, hj⟩) < 64 then 1 else 0 := by
  unfold entry
  rw [contactMap_row cas i hi]
  rw [List.getD_eq_getElem _ _ (by simpa using hj), List.getElem_map]
  simp

theorem contactMap_length (cas : List Atom) :
    (contactMap cas).length = cas.length := by
  simp [contactMap]

theorem contactMap_row_length (cas : List Atom) (row : List ℚ)
    (h : row ∈ contactMap cas) : row.length = cas.length := by
  unfold contactMap at h
  obtain ⟨a, _, rfl⟩ := List.mem_map.mp h
  simp

/-! ## C1: contact-map derivation -/

/-- C1: for every successfully processed structure, the returned contact map is
a square matrix with one row and one column per CA atom, whose entry `(i, j)`
is `1` exactly when the Euclidean distance between the `i`-th and `j`-th CA
atom coordinates is strictly below `8`, and `0` otherwise. -/
theorem contact_map_derivation (atoms : List Atom) (seq : String) (cmap : CMap)
    (h : extract_sequence_and_contacts (some atoms) = some (seq, cmap)) :
    cmap.length = (selectCA atoms).length ∧
    (∀ row ∈ cmap, row.length = (selectCA atoms).length) ∧
    ∀ i j, ∀ hi : i < (selectCA atoms).length, ∀ hj : j < (selectCA atoms).length,
      entry cmap i j =
        if Real.sqrt ((distSq ((selectCA atoms).get ⟨i, hi⟩)
              ((selectCA atoms).get ⟨j, hj⟩) : ℚ)) < 8
        then 1 else 0 := by
  obtain ⟨-, -, hp⟩ := (extract_some_iff atoms (seq, cmap)).mp h
  have hc : cmap = contactMap (selectCA atoms) := congrArg Prod.snd hp
  subst hc
  refine ⟨contactMap_length _, contactMap_row_length _, ?_⟩
  intro i j hi hj
  rw [entry_contactMap _ i j hi hj]
  have hsq : Real.sqrt ((distSq ((selectCA atoms).get ⟨i, hi⟩)
      ((selectCA atoms).get ⟨j, hj⟩) : ℚ)) < 8 ↔
      distSq ((selectCA atoms).get ⟨i, hi⟩) ((selectCA atoms).get ⟨j, hj⟩) < 64 := by
    rw [show (8 : ℝ) = Real.sqrt 64 by
      rw [show (64 : ℝ) = 8 ^ 2 by norm_num, Real.sqrt_sq (by norm_num)]]
    rw [Real.sqrt_lt_sqrt_iff_of_pos (by norm_num)]
    constructor
    · intro hlt
      exact_mod_cast hlt
    · intro hlt
      exact_mod_cast hlt
  by_cases hd : distSq ((selectCA atoms).get ⟨i, hi⟩) ((selectCA atoms).get ⟨j, hj⟩) < 64
  · rw [if_pos hd, if_pos (hsq.mpr hd)]
  · rw [if_neg hd, if_neg (fun hcon => hd (hsq.mp hcon))]

/-- Witness for C1 on a concrete two-atom structure (distance `5 < 8`). -/
theorem contact_map_derivation_witness :
    extract_sequence_and_contacts
        (some [⟨"CA", "ALA", 0, 0, 0⟩, ⟨"CA", "GLY", 3, 4, 0⟩]) =
      some ("AG", [[1, 1], [1, 1]]) ∧
    entry [[1, 1], [1, 1]] 0 1 =
      if Real.sqrt ((distSq (⟨"CA", "ALA", 0, 0, 0⟩ : Atom)
            ⟨"CA", "GLY", 3, 4, 0⟩ : ℚ)) < 8 then 1 else 0 := by
  have h : extract_sequence_and_contacts
      (some [⟨"CA", "ALA", 0, 0, 0⟩, ⟨"CA", "GLY", 3, 4, 0⟩]) =
      some ("AG", [[1, 1], [1, 1]]) := by
    unfold extract_sequence_and_contacts selectCA numAtoms
    simp [contactMap, distSq, three_to_one]
    norm_num
  refine ⟨h, ?_⟩
  have h2 := (contact_map_derivation _ _ _ h).2.2 0 1 (by simp [selectCA]) (by simp [selectCA])
  simpa [selectCA, entry] using h2

/-! ## C8: symmetry and unit diagonal -/

/-- C8: every contact map returned by `extract_sequence_and_contacts` is
symmetric and carries `1` everywhere on the diagonal. -/
theorem contact_map_symm_diag (atoms : List Atom) (seq : String) (cmap : CMap)
    (h : extract_sequence_and_contacts (some atoms) = some (seq, cmap)) :
    (∀ i j, i < cmap.length → j < cmap.length → entry cmap i j = entry cmap j i) ∧
    (∀ i, i < cmap.length → entry cmap i i = 1) := by
  obtain ⟨-, -, hp⟩ := (extract_some_iff atoms (seq, cmap)).mp h
  have hc : cmap = contactMap (selectCA atoms) := congrArg Prod.snd hp
  subst hc
  rw [contactMap_length]
  constructor
  · intro i j hi hj
    rw [entry_contactMap _ i j hi hj, entry_contactMap _ j i hj hi]
    have hsymm : distSq ((selectCA atoms).get ⟨i, hi⟩) ((selectCA atoms).get ⟨j, hj⟩) =
        distSq ((selectCA atoms).get ⟨j, hj⟩) ((selectCA atoms).get ⟨i, hi⟩) := by
      unfold distSq
      ring
    rw [hsymm]
  · intro i hi
    rw [entry_contactMap _ i i hi hi]
    have hzero : distSq ((selectCA atoms).get ⟨i, hi⟩) ((selectCA atoms).get ⟨i, hi⟩) = 0 := by
      unfold distSq
      ring
    rw [hzero]
    norm_num

/-- Witness for C8 on the same two-atom structure. -/
theorem contact_map_symm_diag_witness :
    entry [[1, 1], [1, 1]] 0 1 = entry [[1, 1], [1, 1]] 1 0 ∧
    entry [[1, 1], [1, 1]] 0 0 = 1 := by
  have h : extract_sequence_and_contacts
      (some [⟨"CA", "ALA", 0, 0, 0⟩, ⟨"CA", "GLY", 3, 4, 0⟩]) =
      some ("AG", [[1, 1], [1, 1]]) := by
    unfold extract_sequence_and_contacts selectCA numAtoms
    simp [contactMap, distSq, three_to_one]
    norm_num
  have hs := contact_map_symm_diag _ _ _ h
  exact ⟨hs.1 0 1 (by simp) (by simp), hs.2 0 (by simp)⟩

/-! ## The loading loop as a filterMap -/

theorem loadData_foldl (files : List (Option (List Atom)))
    (a : List String) (b : List CMap) :
    files.foldl loadStep (a, b) =
      (a ++ (files.filterMap extract_sequence_and_contacts).map Prod.fst,
       b ++ (files.filterMap extract_sequence_and_contacts).map Prod.snd) := by
  induction files generalizing a b with
  | nil => simp
  | cons f fs ih =>
    cases hf : extract_sequence_and_contacts f with
    | none =>
      simp only [List.foldl_cons, List.filterMap_cons, hf]
      rw [show loadStep (a, b) f = (a, b) by simp [loadStep, hf]]
      rw [ih a b]
    | some p =>
      obtain ⟨s, c⟩ := p
      simp only [List.foldl_cons, List.filterMap_cons, hf]
      rw [show loadStep (a, b) f = (a ++ [s], b ++ [c]) by simp [loadStep, hf]]
      rw [ih (a ++ [s]) (b ++ [c])]
      simp

theorem loadData_eq (files : List (Option (List Atom))) :
    loadData files =
      ((files.filterMap extract_sequence_and_contacts).map Prod.fst,
       (files.filterMap extract_sequence_and_contacts).map Prod.snd) := by
  simpa using loadData_foldl files [] []

theorem extract_source_bound (f : Option (List Atom)) (p : String × CMap)
    (hf : extract_sequence_and_contacts f = some p) :
    ∃ a, f = some a ∧ numAtoms a ≤ 10000 := by
  cases f with
  | none => simp [extract_sequence_and_contacts] at hf
  | some a => exact ⟨a, rfl, ((extract_some_iff a p).mp hf).2.1⟩

theorem extract_square (f : Option (List Atom)) (seq : String) (cmap : CMap)
    (hf : extract_sequence_and_contacts f = some (seq, cmap)) :
    cmap.length = seq.length ∧ ∀ row ∈ cmap, row.length = seq.length := by
  obtain ⟨a, rfl, -⟩ := extract_source_bound f (seq, cmap) hf
  obtain ⟨-, -, hp⟩ := (extract_some_iff a (seq, cmap)).mp hf
  have hs : seq = String.mk ((selectCA a).map fun x =>
      (three_to_one x.resname).getD 'X') := congrArg Prod.fst hp
  have hc : cmap = contactMap (selectCA a) := congrArg Prod.snd hp
  subst hs
  subst hc
  refine ⟨?_, ?_⟩
  · simp [contactMap_length]
  · intro row hrow
    rw [contactMap_row_length _ _ hrow]
    simp

/-! ## C4: parse failures are skipped -/

/-- C4: when parsing raised an exception or the structure has no CA atoms,
`extract_sequence_and_contacts` returns `(None, None)` instead of raising, and
the loading loop appends nothing, leaving the accumulated `sequences` and
`contact_maps` lists exactly as they were. -/
theorem parse_failures_skipped (f : Option (List Atom))
    (h : f = none ∨ ∃ atoms, f = some atoms ∧ selectCA atoms = []) :
    extract_sequence_and_contacts f = none ∧
    ∀ acc : List String × List CMap, loadStep acc f = acc := by
  have he : extract_sequence_and_contacts f = none := by
    rcases h with rfl | ⟨atoms, rfl, hca⟩
    · rfl
    · rw [extract_some_eq]
      simp [hca]
  exact ⟨he, fun acc => by simp [loadStep, he]⟩

/-- Witness for C4: a structure whose only atom is not a CA atom is skipped,
leaving a concrete accumulator untouched. -/
theorem parse_failures_skipped_witness :
    extract_sequence_and_contacts (some [⟨"N", "ALA", 0, 0, 0⟩]) = none ∧
    loadStep (["S"], [[[1]]]) (some [⟨"N", "ALA", 0, 0, 0⟩]) = (["S"], [[[1]]]) := by
  have h := parse_failures_skipped (some [⟨"N", "ALA", 0, 0, 0⟩])
    (Or.inr ⟨_, rfl, by simp [selectCA]⟩)
  exact ⟨h.1, h.2 _⟩

/-! ## C10: the 10000-atom filter -/

/-- C10: a structure that parses and has CA atoms but strictly more than
10000 atoms is rejected, and consequently every sequence and contact map in
the loaded dataset originates from a structure with at most 10000 atoms. -/
theorem atom_count_filter (atoms : List Atom)
    (hca : ¬ (selectCA atoms).isEmpty) (hbig : 10000 < numAtoms atoms) :
    extract_sequence_and_contacts (some atoms) = none ∧
    ∀ files : List (Option (List Atom)),
      (∀ seq ∈ (loadData files).1, ∃ a cmap, some a ∈ files ∧
        extract_sequence_and_contacts (some a) = some (seq, cmap) ∧
        numAtoms a ≤ 10000) ∧
      (∀ cmap ∈ (loadData files).2, ∃ a seq, some a ∈ files ∧
        extract_sequence_and_contacts (some a) = some (seq, cmap) ∧
        numAtoms a ≤ 10000) := by
  constructor
  · rw [extract_some_eq]
    simp [hca, hbig]
  · intro files
    rw [loadData_eq]
    constructor
    · intro seq hseq
      obtain ⟨p, hp, hps⟩ := List.mem_map.mp hseq
      obtain ⟨f, hfmem, hf⟩ := List.mem_filterMap.mp hp
      obtain ⟨a, rfl, hle⟩ := extract_source_bound f p hf
      exact ⟨a, p.2, hfmem, by rw [hf, ← hps], hle⟩
    · intro cmap hcmap
      obtain ⟨p, hp, hps⟩ := List.mem_map.mp hcmap
      obtain ⟨f, hfmem, hf⟩ := List.mem_filterMap.mp hp
      obtain ⟨a, rfl, hle⟩ := extract_source_bound f p hf
      exact ⟨a, p.1, hfmem, by rw [hf, ← hps], hle⟩

/-- Witness for C10: a pure-CA structure with 10001 atoms is rejected. -/
theorem atom_count_filter_witness :
    extract_sequence_and_contacts
      (some (List.replicate 10001 ⟨"CA", "ALA", 0, 0, 0⟩)) = none := by
  refine (atom_count_filter _ ?_ ?_).1
  · have hsel : selectCA (List.replicate 10001 ⟨"CA", "ALA", 0, 0, 0⟩) =
        List.replicate 10001 ⟨"CA", "ALA", 0, 0, 0⟩ := by
      unfold selectCA
      rw [List.filter_replicate,
        if_pos (show ((⟨"CA", "ALA", 0, 0, 0⟩ : Atom).name == "CA") = true
          from rfl)]
    rw [hsel]
    intro hemp
    rw [List.isEmpty_iff] at hemp
    have hlen := congrArg List.length hemp
    rw [List.length_replicate, List.length_nil] at hlen
    omega
  · unfold numAtoms
    rw [List.length_replicate]
    omega

/-! ## C7: parallel-array invariant -/

/-- C7: for every loaded index, the contact map is square with side equal to
the sequence length, and the `__getitem__` dimension assertion succeeds for
every embedding with one row per sequence character. -/
theorem parallel_array_invariant (files : List (Option (List Atom))) :
    (loadData files).1.length = (loadData files).2.length ∧
    (∀ i, i < (loadData files).1.length →
      ((loadData files).2.getD i []).length = ((loadData files).1.getD i "").length ∧
      ∀ row ∈ (loadData files).2.getD i [],
        row.length = ((loadData files).1.getD i "").length) ∧
    ∀ i emb, i < (loadData files).1.length →
      List.length emb = ((loadData files).1.getD i "").length →
      getitem emb ((loadData files).2.getD i []) =
        some (emb, (loadData files).2.getD i []) := by
  rw [loadData_eq]
  simp only [List.length_map]
  have key : ∀ i, ∀ hi : i < (files.filterMap extract_sequence_and_contacts).length,
      ((files.filterMap extract_sequence_and_contacts).map Prod.snd).getD i [] =
        ((files.filterMap extract_sequence_and_contacts).get ⟨i, hi⟩).2 ∧
      ((files.filterMap extract_sequence_and_contacts).map Prod.fst).getD i "" =
        ((files.filterMap extract_sequence_and_contacts).get ⟨i, hi⟩).1 := by
    intro i hi
    constructor
    · rw [List.getD_eq_getElem _ _ (by simpa using hi), List.getElem_map]
      simp
    · rw [List.getD_eq_getElem _ _ (by simpa using hi), List.getElem_map]
      simp
  have sq : ∀ i, ∀ hi : i < (files.filterMap extract_sequence_and_contacts).length,
      ((files.filterMap extract_sequence_and_contacts).get ⟨i, hi⟩).2.length =
        ((files.filterMap extract_sequence_and_contacts).get ⟨i, hi⟩).1.length ∧
      ∀ row ∈ ((files.filterMap extract_sequence_and_contacts).get ⟨i, hi⟩).2,
        row.length = ((files.filterMap extract_sequence_and_contacts).get ⟨i, hi⟩).1.length := by
    intro i hi
    have hmem : (files.filterMap extract_sequence_and_contacts).get ⟨i, hi⟩ ∈
        files.filterMap extract_sequence_and_contacts := List.get_mem _ _ _
    obtain ⟨f, -, hf⟩ := List.mem_filterMap.mp hmem
    exact extract_square f _ _ (by rw [hf])
  refine ⟨by simp, ?_, ?_⟩
  · intro i hi
    obtain ⟨h2, h1⟩ := key i (by simpa using hi)
    rw [h2, h1]
    exact sq i (by simpa using hi)
  · intro i emb hi hlen
    obtain ⟨h2, h1⟩ := key i (by simpa using hi)
    rw [h1] at hlen
    rw [h2]
    unfold getitem
    rw [if_pos (hlen.trans ((sq i (by simpa using hi)).1).symm)]

/-- Witness for C7: a one-residue structure loads to the parallel lists
`(["A"], [[[1]]])`, and a one-row embedding passes the assertion. -/
theorem parallel_array_invariant_witness :
    getitem [[0]] ((loadData [some [⟨"CA", "ALA", 0, 0, 0⟩]]).2.getD 0 []) =
      some ([[0]], (loadData [some [⟨"CA", "ALA", 0, 0, 0⟩]]).2.getD 0 []) := by
  have hex : extract_sequence_and_contacts (some [⟨"CA", "ALA", 0, 0, 0⟩]) =
      some ("A", [[1]]) := by
    rw [extract_some_eq]
    simp [selectCA, numAtoms, contactMap, distSq, three_to_one]
  have hload : loadData [some [⟨"CA", "ALA", 0, 0, 0⟩]] = (["A"], [[[1]]]) := by
    rw [loadData_eq, List.filterMap_cons, hex]
    simp
  refine (parallel_array_invariant [some [⟨"CA", "ALA", 0, 0, 0⟩]]).2.2 0 [[0]] ?_ ?_
  · rw [hload]
    simp
  · rw [hload]
    simp
    rfl

/-! ## C5: download_pdb_files (cell 8) -/

/-- A filesystem, as an association list from paths to file contents. -/
abbrev Fs := List (String × String)

/-- `os.path.exists(file_path)`. -/
def fsHas (fs : Fs) (p : String) : Bool :=
  fs.any fun e => e.1 == p

/-- `with open(file_path, 'w') as f: f.write(text)` — create or overwrite. -/
def fsWrite (fs : Fs) (p c : String) : Fs :=
  (fs.filter fun e => e.1 != p) ++ [(p, c)]

/-- `pdb_id.split('_')[0]`. -/
def entryId (pdb_id : String) : String :=
  (pdb_id.splitOn "_").headD pdb_id

/-- The download URL built for an entry id. -/
def downloadUrl (e : String) : String :=
  "https://files.rcsb.org/download/" ++ e ++ ".pdb"

/-- `os.path.join(download_dir, f'{entry_id}.pdb')`. -/
def pdbPath (download_dir e : String) : String :=
  download_dir ++ "/" ++ e ++ ".pdb"

/-- One iteration of `download_pdb_files`: skip when the file already exists;
otherwise fetch the URL (`fetch` models `requests.get` followed by
`raise_for_status`, returning the response text or a request exception) and
write the file; on a request exception print and continue, writing nothing. -/
def downloadStep (fetch : String → Except String String) (download_dir : String)
    (fs : Fs) (pdb_id : String) : Fs :=
  let e := entryId pdb_id
  let path := pdbPath download_dir e
  if fsHas fs path then fs
  else
    match fetch (downloadUrl e) with
    | Except.ok text => fsWrite fs path text
    | Except.error _ => fs

/-- `download_pdb_files(pdb_ids, download_dir)`, acting on a starting
filesystem (total: every exception of the loop body is caught inside it). -/
def download_pdb_files (fetch : String → Except String String)
    (pdb_ids : List String) (download_dir : String) (fs : Fs) : Fs :=
  pdb_ids.foldl (downloadStep fetch download_dir) fs

/-- C5: when the HTTP request for an id fails, the iteration for that id
writes no file and changes nothing, and the loop result is exactly the result
of processing the remaining ids — a single failed download affects only its
own item. -/
theorem download_failure_caught (fetch : String → Except String String)
    (dir pdb_id err : String)
    (he : fetch (downloadUrl (entryId pdb_id)) = Except.error err) :
    (∀ fs : Fs, downloadStep fetch dir fs pdb_id = fs) ∧
    ∀ (pre post : List String) (fs : Fs),
      download_pdb_files fetch (pre ++ pdb_id :: post) dir fs =
        download_pdb_files fetch (pre ++ post) dir fs := by
  have hstep : ∀ fs : Fs, downloadStep fetch dir fs pdb_id = fs := by
    intro fs
    show (if fsHas fs (pdbPath dir (entryId pdb_id)) then fs
      else
        match fetch (downloadUrl (entryId pdb_id)) with
        | Except.ok text => fsWrite fs (pdbPath dir (entryId pdb_id)) text
        | Except.error _ => fs) = fs
    rw [he]
    split <;> rfl
  refine ⟨hstep, ?_⟩
  intro pre post fs
  unfold download_pdb_files
  rw [List.foldl_append, List.foldl_cons, hstep, ← List.foldl_append]

/-- Witness for C5: a fetch that always fails downloads nothing. -/
theorem download_failure_caught_witness :
    downloadStep (fun _ => Except.error "404") "pdb_structures" [] "1ABC_1" = [] ∧
    download_pdb_files (fun _ => Except.error "404") ["1ABC_1"]
      "pdb_structures" [] = [] := by
  have h := download_failure_caught (fun _ => Except.error "404")
    "pdb_structures" "1ABC_1" "404" rfl
  exact ⟨h.1 [], by simpa using h.2 [] [] []⟩

/-! ## Exact binary64 arithmetic

The split cell computes `int(0.7 * num_sequences)` and
`int(0.85 * num_sequences)` in Python double precision.  The model below
rounds an exact rational to the nearest multiple of `2 ^ (e - 52)` (`e` the
binade exponent of the value), ties to the even significand — exactly IEEE-754
binary64 round-to-nearest-even on the normal range.  Overflow and subnormal
underflow are not modelled; both are out of range for every quantity the
split cell produces on realisable inputs. -/

/-- Number of binary digits of a natural number, written with a fuel counter
so that the recursion is structural (and therefore kernel-reducible). -/
def bitLenAux : ℕ → ℕ → ℕ
  | 0, _ => 0
  | fuel + 1, n => if n = 0 then 0 else bitLenAux fuel (n / 2) + 1

/-- Number of binary digits of `n` (`0` has none). -/
def bitLen (n : ℕ) : ℕ :=
  bitLenAux n n

theorem bitLenAux_zero (fuel : ℕ) : bitLenAux fuel 0 = 0 := by
  cases fuel <;> simp [bitLenAux]

theorem bitLenAux_spec (fuel : ℕ) : ∀ n, n ≤ fuel → 1 ≤ n →
    n < 2 ^ bitLenAux fuel n ∧ 2 ^ bitLenAux fuel n ≤ 2 * n := by
  induction fuel with
  | zero => intro n h1 h2; omega
  | succ fuel ih =>
    intro n hle h1
    have hne : ¬ n = 0 := by omega
    rw [show bitLenAux (fuel + 1) n = bitLenAux fuel (n / 2) + 1 by
      simp [bitLenAux, hne]]
    by_cases h2 : n = 1
    · subst h2
      rw [show (1:ℕ) / 2 = 0 by norm_num, bitLenAux_zero]
      norm_num
    · obtain ⟨ha, hb⟩ := ih (n / 2) (by omega) (by omega)
      rw [pow_succ]
      omega

theorem bitLen_spec (n : ℕ) (h : 1 ≤ n) :
    n < 2 ^ bitLen n ∧ 2 ^ bitLen n ≤ 2 * n :=
  bitLenAux_spec n n le_rfl h

/-- The binade exponent of a nonzero rational `q`: the unique `e` with
`2 ^ e ≤ |q| < 2 ^ (e + 1)`. -/
def floatExp (q : ℚ) : ℤ :=
  let e0 : ℤ := (bitLen q.num.natAbs : ℤ) - (bitLen q.den : ℤ)
  if |q| < 2 ^ e0 then e0 - 1 else e0

theorem floatExp_spec (q : ℚ) (hq : q ≠ 0) :
    2 ^ floatExp q ≤ |q| ∧ |q| < 2 ^ (floatExp q + 1) := by
  have ha1 : 1 ≤ q.num.natAbs := by
    have := Rat.num_ne_zero.mpr hq
    omega
  have hb1 : 1 ≤ q.den := q.den_pos
  obtain ⟨hA1, hA2⟩ := bitLen_spec q.num.natAbs ha1
  obtain ⟨hB1, hB2⟩ := bitLen_spec q.den hb1
  set A := bitLen q.num.natAbs with hAdef
  set B := bitLen q.den with hBdef
  have hB0 : 1 ≤ B := by
    rcases Nat.eq_zero_or_pos B with h0 | h
    · rw [h0, pow_zero] at hB1
      omega
    · exact h
  have hA0 : 1 ≤ A := by
    rcases Nat.eq_zero_or_pos A with h0 | h
    · rw [h0, pow_zero] at hA1
      omega
    · exact h
  have hbpos : (0:ℚ) < (q.den : ℚ) := by exact_mod_cast q.den_pos
  have habs : |q| = (q.num.natAbs : ℚ) / (q.den : ℚ) := by
    have h1 : |q| = |(q.num : ℚ)| / (q.den : ℚ) := by
      conv_lhs => rw [← Rat.num_div_den q]
      rw [abs_div, abs_of_pos hbpos]
    rw [h1, Int.cast_natAbs, Int.cast_abs]
  -- rational versions of the bitLen bounds
  have hA1q : (q.num.natAbs : ℚ) < 2 ^ A := by exact_mod_cast hA1
  have hA2q : (2:ℚ) ^ (A - 1 : ℕ) ≤ (q.num.natAbs : ℚ) := by
    have h : 2 ^ (A - 1 : ℕ) ≤ q.num.natAbs := by
      have h2 : 2 ^ (A - 1 : ℕ) * 2 = 2 ^ A := by
        rw [← pow_succ]
        congr 1
        omega
      omega
    exact_mod_cast h
  have hB1q : (q.den : ℚ) < 2 ^ B := by exact_mod_cast hB1
  have hB2q : (2:ℚ) ^ (B - 1 : ℕ) ≤ (q.den : ℚ) := by
    have h : 2 ^ (B - 1 : ℕ) ≤ q.den := by
      have h2 : 2 ^ (B - 1 : ℕ) * 2 = 2 ^ B := by
        rw [← pow_succ]
        congr 1
        omega
      omega
    exact_mod_cast h
  have htwo : (2:ℚ) ≠ 0 := by norm_num
  -- |q| < 2 ^ (e0 + 1)
  have hupper : |q| < 2 ^ ((A:ℤ) - (B:ℤ) + 1) := by
    rw [habs, div_lt_iff₀ hbpos]
    have hsplit : (2:ℚ) ^ ((A:ℤ) - (B:ℤ) + 1) * 2 ^ ((B:ℤ) - 1) = 2 ^ (A:ℕ) := by
      rw [← zpow_add₀ htwo, show (A:ℤ) - (B:ℤ) + 1 + ((B:ℤ) - 1) = ((A:ℕ):ℤ) by ring,
        zpow_natCast]
    have hpow : (2:ℚ) ^ ((B:ℤ) - 1) = 2 ^ (B - 1 : ℕ) := by
      rw [show (B:ℤ) - 1 = ((B - 1 : ℕ) : ℤ) by omega, zpow_natCast]
    calc (q.num.natAbs : ℚ) < 2 ^ (A:ℕ) := hA1q
    _ = 2 ^ ((A:ℤ) - (B:ℤ) + 1) * 2 ^ ((B:ℤ) - 1) := hsplit.symm
    _ ≤ 2 ^ ((A:ℤ) - (B:ℤ) + 1) * (q.den : ℚ) := by
        apply mul_le_mul_of_nonneg_left _ (by positivity)
        rw [hpow]
        exact hB2q
  -- 2 ^ (e0 - 1) < |q|
  have hlower : (2:ℚ) ^ ((A:ℤ) - (B:ℤ) - 1) < |q| := by
    rw [habs, lt_div_iff₀ hbpos]
    have hsplit : (2:ℚ) ^ ((A:ℤ) - (B:ℤ) - 1) * 2 ^ ((B:ℕ):ℤ) = 2 ^ (A - 1 : ℕ) := by
      rw [← zpow_add₀ htwo, show (A:ℤ) - (B:ℤ) - 1 + ((B:ℕ):ℤ) = ((A - 1 : ℕ) : ℤ) by omega,
        zpow_natCast]
    calc 2 ^ ((A:ℤ) - (B:ℤ) - 1) * (q.den : ℚ)
        < 2 ^ ((A:ℤ) - (B:ℤ) - 1) * 2 ^ ((B:ℕ):ℤ) := by
          apply mul_lt_mul_of_pos_left _ (by positivity)
          rw [zpow_natCast]
          exact hB1q
    _ = 2 ^ (A - 1 : ℕ) := hsplit
    _ ≤ (q.num.natAbs : ℚ) := hA2q
  have hfe : floatExp q =
      if |q| < 2 ^ ((A:ℤ) - (B:ℤ)) then (A:ℤ) - (B:ℤ) - 1 else (A:ℤ) - (B:ℤ) := rfl
  rw [hfe]
  split_ifs with hcase
  · refine ⟨le_of_lt hlower, ?_⟩
    rw [show (A:ℤ) - (B:ℤ) - 1 + 1 = (A:ℤ) - (B:ℤ) by ring]
    exact hcase
  · exact ⟨not_lt.mp hcase, hupper⟩

/-- Round a rational to the nearest integer, ties to the even integer. -/
def roundHalfEven (x : ℚ) : ℤ :=
  if x - ⌊x⌋ < 1 / 2 then ⌊x⌋
  else if 1 / 2 < x - ⌊x⌋ then ⌊x⌋ + 1
  else if ⌊x⌋ % 2 = 0 then ⌊x⌋ else ⌊x⌋ + 1

theorem roundHalfEven_bounds (x : ℚ) :
    x - 1 / 2 ≤ (roundHalfEven x : ℚ) ∧ (roundHalfEven x : ℚ) ≤ x + 1 / 2 := by
  have h1 := Int.floor_le x
  have h2 := Int.lt_floor_add_one x
  unfold roundHalfEven
  split_ifs with a b c <;> constructor <;> push_cast <;> linarith

/-- Exact binary64 (double-precision) rounding of a rational. -/
def fl64 (q : ℚ) : ℚ :=
  if q = 0 then 0
  else
    (if q < 0 then -1 else 1) *
      (roundHalfEven (|q| * 2 ^ (52 - floatExp q)) : ℚ) * 2 ^ (floatExp q - 52)

theorem fl64_bounds (q : ℚ) (hq : 0 ≤ q) :
    q * (1 - 2 ^ (-(53:ℤ))) ≤ fl64 q ∧ fl64 q ≤ q * (1 + 2 ^ (-(53:ℤ))) := by
  rcases eq_or_lt_of_le hq with heq | hpos
  · rw [← heq]
    norm_num [fl64]
  · have hne : q ≠ 0 := ne_of_gt hpos
    have habs : |q| = q := abs_of_pos hpos
    obtain ⟨hlow, -⟩ := floatExp_spec q hne
    rw [habs] at hlow
    set e := floatExp q with hedef
    have hfl : fl64 q = (roundHalfEven (q * 2 ^ (52 - e)) : ℚ) * 2 ^ (e - 52) := by
      unfold fl64
      rw [if_neg hne, if_neg (not_lt.mpr hq), habs, ← hedef]
      ring
    obtain ⟨hr1, hr2⟩ := roundHalfEven_bounds (q * 2 ^ (52 - e))
    have hps : (0:ℚ) < 2 ^ (e - 52) := by positivity
    have hcancel : q * 2 ^ (52 - e) * 2 ^ (e - 52) = q := by
      rw [mul_assoc, ← zpow_add₀ (by norm_num : (2:ℚ) ≠ 0)]
      rw [show 52 - e + (e - 52) = 0 by ring]
      norm_num
    have hhalf : (1:ℚ) / 2 * 2 ^ (e - 52) = 2 ^ (e - 53) := by
      rw [show (1:ℚ)/2 = 2 ^ (-(1:ℤ)) by norm_num]
      rw [← zpow_add₀ (by norm_num : (2:ℚ) ≠ 0)]
      congr 1
      ring
    have herr : (2:ℚ) ^ (e - 53) ≤ q * 2 ^ (-(53:ℤ)) := by
      calc (2:ℚ) ^ (e - 53) = 2 ^ e * 2 ^ (-(53:ℤ)) := by
            rw [← zpow_add₀ (by norm_num : (2:ℚ) ≠ 0)]
            congr 1
      _ ≤ q * 2 ^ (-(53:ℤ)) := by
            apply mul_le_mul_of_nonneg_right hlow (by positivity)
    constructor
    · rw [hfl]
      calc q * (1 - 2 ^ (-(53:ℤ))) = q - q * 2 ^ (-(53:ℤ)) := by ring
      _ ≤ q - 2 ^ (e - 53) := by linarith
      _ = q * 2 ^ (52 - e) * 2 ^ (e - 52) - 1/2 * 2 ^ (e - 52) := by
          rw [hcancel, hhalf]
      _ = (q * 2 ^ (52 - e) - 1/2) * 2 ^ (e - 52) := by ring
      _ ≤ (roundHalfEven (q * 2 ^ (52 - e)) : ℚ) * 2 ^ (e - 52) := by
          apply mul_le_mul_of_nonneg_right _ (le_of_lt hps)
          linarith
    · rw [hfl]
      calc (roundHalfEven (q * 2 ^ (52 - e)) : ℚ) * 2 ^ (e - 52)
          ≤ (q * 2 ^ (52 - e) + 1/2) * 2 ^ (e - 52) := by
            apply mul_le_mul_of_nonneg_right _ (le_of_lt hps)
            linarith
      _ = q * 2 ^ (52 - e) * 2 ^ (e - 52) + 1/2 * 2 ^ (e - 52) := by ring
      _ = q + 2 ^ (e - 53) := by rw [hcancel, hhalf]
      _ ≤ q + q * 2 ^ (-(53:ℤ)) := by linarith
      _ = q * (1 + 2 ^ (-(53:ℤ))) := by ring

theorem fl64_nonneg (q : ℚ) (hq : 0 ≤ q) : 0 ≤ fl64 q := by
  have h := (fl64_bounds q hq).1
  have : (0:ℚ) ≤ q * (1 - 2 ^ (-(53:ℤ))) := by
    apply mul_nonneg hq
    norm_num
  linarith

theorem floatExp_eq (q : ℚ) (e : ℤ) (h0 : q ≠ 0)
    (h1 : 2 ^ e ≤ |q|) (h2 : |q| < 2 ^ (e + 1)) : floatExp q = e := by
  obtain ⟨hs1, hs2⟩ := floatExp_spec q h0
  by_contra hne
  rcases lt_or_gt_of_ne hne with hlt | hgt
  · have hle : (2:ℚ) ^ (floatExp q + 1) ≤ 2 ^ e := by
      apply zpow_le_zpow_right₀ (by norm_num) (by omega)
    linarith
  · have hle : (2:ℚ) ^ (e + 1) ≤ 2 ^ floatExp q := by
      apply zpow_le_zpow_right₀ (by norm_num) (by omega)
    linarith

theorem roundHalfEven_eq_of_floor (x : ℚ) (m : ℤ) (hm : ⌊x⌋ = m)
    (hfr : x - m < 1 / 2) : roundHalfEven x = m := by
  unfold roundHalfEven
  rw [hm, if_pos hfr]

theorem fl64_eval (q : ℚ) (e m : ℤ) (hq : 0 < q)
    (h1 : 2 ^ e ≤ q) (h2 : q < 2 ^ (e + 1))
    (hm : ⌊q * 2 ^ (52 - e)⌋ = m) (hfr : q * 2 ^ (52 - e) - m < 1 / 2) :
    fl64 q = m * 2 ^ (e - 52) := by
  have habs : |q| = q := abs_of_pos hq
  have he : floatExp q = e := floatExp_eq q e (ne_of_gt hq)
    (by rw [habs]; exact h1) (by rw [habs]; exact h2)
  unfold fl64
  rw [if_neg (ne_of_gt hq), if_neg (not_lt.mpr hq.le), habs, he,
    roundHalfEven_eq_of_floor _ m hm hfr]
  ring

/-- The Python double literal `0.7` (the binary64 nearest to `7/10`). -/
def float07 : ℚ := fl64 (7 / 10)

/-- The Python double literal `0.85` (the binary64 nearest to `17/20`). -/
def float085 : ℚ := fl64 (85 / 100)

theorem float07_eq : float07 = 3152519739159347 / 4503599627370496 := by
  have h := fl64_eval (7 / 10) (-1) 6305039478318694 (by norm_num)
    (by norm_num) (by norm_num)
    (by rw [Int.floor_eq_iff]
        constructor <;> norm_num)
    (by norm_num)
  unfold float07
  rw [h]
  norm_num

theorem float085_eq : float085 = 7656119366529843 / 9007199254740992 := by
  have h := fl64_eval (85 / 100) (-1) 7656119366529843 (by norm_num)
    (by norm_num) (by norm_num)
    (by rw [Int.floor_eq_iff]
        constructor <;> norm_num)
    (by norm_num)
  unfold float085
  rw [h]
  norm_num

/-! ## The split cell (cell 15) -/

/-- `int(0.7 * num_sequences)`: the length is converted to a double, the
multiplication by the double `0.7` is rounded back to a double, and `int`
truncates the (nonnegative) result toward zero. -/
def train_end (n : ℕ) : ℕ :=
  (⌊fl64 (float07 * fl64 n)⌋).toNat

/-- `int(0.85 * num_sequences)`, analogously. -/
def val_end (n : ℕ) : ℕ :=
  (⌊fl64 (float085 * fl64 n)⌋).toNat

theorem train_end_le_val_end (n : ℕ) : train_end n ≤ val_end n := by
  have hm := fl64_bounds (n : ℚ) (by positivity)
  have hm0 : 0 ≤ fl64 (n : ℚ) := fl64_nonneg _ (by positivity)
  have h07 : (0:ℚ) ≤ float07 := by
    rw [float07_eq]
    norm_num
  have h85 : (0:ℚ) ≤ float085 := by
    rw [float085_eq]
    norm_num
  have hb7 := fl64_bounds (float07 * fl64 (n : ℚ)) (mul_nonneg h07 hm0)
  have hb85 := fl64_bounds (float085 * fl64 (n : ℚ)) (mul_nonneg h85 hm0)
  have hc : float07 * (1 + 2 ^ (-(53:ℤ))) ≤ float085 * (1 - 2 ^ (-(53:ℤ))) := by
    rw [float07_eq, float085_eq]
    norm_num
  have key : fl64 (float07 * fl64 (n : ℚ)) ≤ fl64 (float085 * fl64 (n : ℚ)) := by
    calc fl64 (float07 * fl64 (n : ℚ))
        ≤ (float07 * fl64 (n : ℚ)) * (1 + 2 ^ (-(53:ℤ))) := hb7.2
    _ = fl64 (n : ℚ) * (float07 * (1 + 2 ^ (-(53:ℤ)))) := by ring
    _ ≤ fl64 (n : ℚ) * (float085 * (1 - 2 ^ (-(53:ℤ)))) :=
        mul_le_mul_of_nonneg_left hc hm0
    _ = (float085 * fl64 (n : ℚ)) * (1 - 2 ^ (-(53:ℤ))) := by ring
    _ ≤ fl64 (float085 * fl64 (n : ℚ)) := hb85.1
  unfold train_end val_end
  exact Int.toNat_le_toNat (Int.floor_le_floor key)

theorem val_end_le (n : ℕ) (hn : 1 ≤ n) : val_end n ≤ n := by
  have hm := fl64_bounds (n : ℚ) (by positivity)
  have hm0 : 0 ≤ fl64 (n : ℚ) := fl64_nonneg _ (by positivity)
  have h85 : (0:ℚ) ≤ float085 := by
    rw [float085_eq]
    norm_num
  have hb85 := fl64_bounds (float085 * fl64 (n : ℚ)) (mul_nonneg h85 hm0)
  have hnpos : (0:ℚ) < (n : ℚ) := by exact_mod_cast hn
  have hfac : float085 * (1 + 2 ^ (-(53:ℤ))) ^ 2 < 1 := by
    rw [float085_eq]
    norm_num
  have hlt : fl64 (float085 * fl64 (n : ℚ)) < (n : ℚ) := by
    calc fl64 (float085 * fl64 (n : ℚ))
        ≤ (float085 * fl64 (n : ℚ)) * (1 + 2 ^ (-(53:ℤ))) := hb85.2
    _ ≤ (float085 * ((n : ℚ) * (1 + 2 ^ (-(53:ℤ))))) * (1 + 2 ^ (-(53:ℤ))) := by
        apply mul_le_mul_of_nonneg_right _ (by positivity)
        exact mul_le_mul_of_nonneg_left hm.2 h85
    _ = (n : ℚ) * (float085 * (1 + 2 ^ (-(53:ℤ))) ^ 2) := by ring
    _ < (n : ℚ) * 1 := mul_lt_mul_of_pos_left hfac hnpos
    _ = (n : ℚ) := mul_one _
  unfold val_end
  have hfloor : ⌊fl64 (float085 * fl64 (n : ℚ))⌋ < (n : ℤ) :=
    Int.floor_lt.mpr (by exact_mod_cast hlt)
  exact Int.toNat_le.mpr (by omega)

/-- `[xs[i] for i in idx]` (all indices used by the split cell are in range,
so the `getD` default is never read there). -/
def selectBy {α : Type} [Inhabited α] (xs : List α) (idx : List ℕ) : List α :=
  idx.map fun i => xs.getD i default

/-- The nine lists produced by the split cell, in source order. -/
structure SplitResult where
  train_indices : List ℕ
  val_indices : List ℕ
  test_indices : List ℕ
  train_sequences : List String
  val_sequences : List String
  test_sequences : List String
  train_contact_maps : List CMap
  val_contact_maps : List CMap
  test_contact_maps : List CMap

/-- The split cell: slice the shuffled `indices` at `int(0.7*n)` and
`int(0.85*n)` and select the sequences and contact maps by the index lists.
`indices` is the result of `np.random.shuffle(list(range(n)))`, passed here
as an argument. -/
def splitData (sequences : List String) (contact_maps : List CMap)
    (indices : List ℕ) : SplitResult :=
  let n := sequences.length
  let t := train_end n
  let v := val_end n
  let tr := indices.take t
  let va := (indices.drop t).take (v - t)
  let te := indices.drop v
  ⟨tr, va, te,
    selectBy sequences tr, selectBy sequences va, selectBy sequences te,
    selectBy contact_maps tr, selectBy contact_maps va, selectBy contact_maps te⟩

theorem splitData_train_indices (s : List String) (c : List CMap) (idx : List ℕ) :
    (splitData s c idx).train_indices = idx.take (train_end s.length) := rfl

theorem splitData_val_indices (s : List String) (c : List CMap) (idx : List ℕ) :
    (splitData s c idx).val_indices =
      (idx.drop (train_end s.length)).take (val_end s.length - train_end s.length) := rfl

theorem splitData_test_indices (s : List String) (c : List CMap) (idx : List ℕ) :
    (splitData s c idx).test_indices = idx.drop (val_end s.length) := rfl

theorem splitData_train_sequences (s : List String) (c : List CMap) (idx : List ℕ) :
    (splitData s c idx).train_sequences =
      selectBy s ((splitData s c idx).train_indices) := rfl

theorem splitData_val_sequences (s : List String) (c : List CMap) (idx : List ℕ) :
    (splitData s c idx).val_sequences =
      selectBy s ((splitData s c idx).val_indices) := rfl

theorem splitData_test_sequences (s : List String) (c : List CMap) (idx : List ℕ) :
    (splitData s c idx).test_sequences =
      selectBy s ((splitData s c idx).test_indices) := rfl

theorem splitData_train_contact_maps (s : List String) (c : List CMap) (idx : List ℕ) :
    (splitData s c idx).train_contact_maps =
      selectBy c ((splitData s c idx).train_indices) := rfl

theorem splitData_val_contact_maps (s : List String) (c : List CMap) (idx : List ℕ) :
    (splitData s c idx).val_contact_maps =
      selectBy c ((splitData s c idx).val_indices) := rfl

theorem splitData_test_contact_maps (s : List String) (c : List CMap) (idx : List ℕ) :
    (splitData s c idx).test_contact_maps =
      selectBy c ((splitData s c idx).test_indices) := rfl

theorem selectBy_getD {α : Type} [Inhabited α] (xs : List α) (idx : List ℕ)
    (k : ℕ) (hk : k < idx.length) :
    (selectBy xs idx).getD k default = xs.getD (idx.getD k 0) default := by
  unfold selectBy
  rw [List.getD_eq_getElem _ _ (by simpa using hk), List.getElem_map,
    List.getD_eq_getElem _ _ hk]

theorem selectBy_length {α : Type} [Inhabited α] (xs : List α) (idx : List ℕ) :
    (selectBy xs idx).length = idx.length := by
  simp [selectBy]

/-- C6 (amended): for a non-empty loaded dataset the split is a partition —
the three index lists concatenate back to the shuffled index list, are
pairwise disjoint, and together are a permutation of `{0, …, n-1}`; their
sizes are `int(0.7*n)`, `int(0.85*n) - int(0.7*n)` and `n - int(0.85*n)` as
computed by the code in binary64 arithmetic (these differ from the exact
floors `⌊0.7n⌋`, `⌊0.85n⌋` at some `n`, e.g. `n = 90`); and the sequence and
contact-map lists are selected by the same indices in the same order. -/
theorem split_partition (sequences : List String) (contact_maps : List CMap)
    (indices : List ℕ) (hne : sequences ≠ [])
    (hperm : indices.Perm (List.range sequences.length)) :
    ((splitData sequences contact_maps indices).train_indices ++
        (splitData sequences contact_maps indices).val_indices ++
        (splitData sequences contact_maps indices).test_indices = indices) ∧
    ((splitData sequences contact_maps indices).train_indices ++
        (splitData sequences contact_maps indices).val_indices ++
        (splitData sequences contact_maps indices).test_indices).Perm
      (List.range sequences.length) ∧
    List.Disjoint (splitData sequences contact_maps indices).train_indices
      (splitData sequences contact_maps indices).val_indices ∧
    List.Disjoint (splitData sequences contact_maps indices).train_indices
      (splitData sequences contact_maps indices).test_indices ∧
    List.Disjoint (splitData sequences contact_maps indices).val_indices
      (splitData sequences contact_maps indices).test_indices ∧
    ((splitData sequences contact_maps indices).train_indices.length =
      train_end sequences.length) ∧
    ((splitData sequences contact_maps indices).val_indices.length =
      val_end sequences.length - train_end sequences.length) ∧
    ((splitData sequences contact_maps indices).test_indices.length =
      sequences.length - val_end sequences.length) ∧
    (∀ k, k < (splitData sequences contact_maps indices).train_indices.length →
      (splitData sequences contact_maps indices).train_sequences.getD k "" =
        sequences.getD
          ((splitData sequences contact_maps indices).train_indices.getD k 0) "" ∧
      (splitData sequences contact_maps indices).train_contact_maps.getD k [] =
        contact_maps.getD
          ((splitData sequences contact_maps indices).train_indices.getD k 0) []) ∧
    (∀ k, k < (splitData sequences contact_maps indices).val_indices.length →
      (splitData sequences contact_maps indices).val_sequences.getD k "" =
        sequences.getD
          ((splitData sequences contact_maps indices).val_indices.getD k 0) "" ∧
      (splitData sequences contact_maps indices).val_contact_maps.getD k [] =
        contact_maps.getD
          ((splitData sequences contact_maps indices).val_indices.getD k 0) []) ∧
    (∀ k, k < (splitData sequences contact_maps indices).test_indices.length →
      (splitData sequences contact_maps indices).test_sequences.getD k "" =
        sequences.getD
          ((splitData sequences contact_maps indices).test_indices.getD k 0) "" ∧
      (splitData sequences contact_maps indices).test_contact_maps.getD k [] =
        contact_maps.getD
          ((splitData sequences contact_maps indices).test_indices.getD k 0) []) := by
  have hlen : indices.length = sequences.length := by
    rw [hperm.length_eq, List.length_range]
  have hn1 : 1 ≤ sequences.length := List.length_pos.mpr hne
  have htv : train_end sequences.length ≤ val_end sequences.length :=
    train_end_le_val_end sequences.length
  have hvn : val_end sequences.length ≤ sequences.length :=
    val_end_le sequences.length hn1
  rw [splitData_train_indices, splitData_val_indices, splitData_test_indices,
    splitData_train_sequences, splitData_val_sequences, splitData_test_sequences,
    splitData_train_contact_maps, splitData_val_contact_maps,
    splitData_test_contact_maps, splitData_train_indices, splitData_val_indices,
    splitData_test_indices]
  set t := train_end sequences.length with htdef
  set v := val_end sequences.length with hvdef
  have happ : indices.take t ++ ((indices.drop t).take (v - t) ++ indices.drop v)
      = indices := by
    have hdd : indices.drop v = ((indices.drop t).drop (v - t)) := by
      rw [List.drop_drop]
      congr 1
      omega
    rw [hdd, List.take_append_drop, List.take_append_drop]
  have hnodup : (indices.take t ++ ((indices.drop t).take (v - t) ++
      indices.drop v)).Nodup := by
    rw [happ]
    exact hperm.nodup_iff.mpr (List.nodup_range _)
  have hdisj := List.disjoint_of_nodup_append hnodup
  rw [List.disjoint_append_right] at hdisj
  have hdisj23 := List.disjoint_of_nodup_append hnodup.of_append_right
  refine ⟨?_, ?_, hdisj.1, hdisj.2, hdisj23, ?_, ?_, ?_, ?_, ?_, ?_⟩
  · rw [List.append_assoc, happ]
  · rw [List.append_assoc, happ]
    exact hperm
  · rw [List.length_take]
    omega
  · rw [List.length_take, List.length_drop]
    omega
  · rw [List.length_drop]
    omega
  · intro k hk
    exact ⟨selectBy_getD sequences _ k hk, selectBy_getD contact_maps _ k hk⟩
  · intro k hk
    exact ⟨selectBy_getD sequences _ k hk, selectBy_getD contact_maps _ k hk⟩
  · intro k hk
    exact ⟨selectBy_getD sequences _ k hk, selectBy_getD contact_maps _ k hk⟩

theorem fl64_rat_90 : fl64 (90 : ℚ) = 90 := by
  have h := fl64_eval (90 : ℚ) 6 6333186975989760 (by norm_num)
    (by norm_num) (by norm_num)
    (by rw [Int.floor_eq_iff]
        constructor <;> norm_num)
    (by norm_num)
  rw [h]
  norm_num

/-- `int(0.7 * 90)` is `62` in binary64 arithmetic (`0.7 * 90` evaluates to
`62.99999999999999`), although `⌊0.7 · 90⌋ = 63`. -/
theorem train_end_90 : train_end 90 = 62 := by
  unfold train_end
  rw [show ((90:ℕ):ℚ) = (90:ℚ) by norm_num, fl64_rat_90]
  have hq : float07 * (90:ℚ) = 283726776524341230 / 4503599627370496 := by
    rw [float07_eq]
    norm_num
  rw [hq]
  have h := fl64_eval (283726776524341230 / 4503599627370496) 5 8866461766385663
    (by norm_num) (by norm_num) (by norm_num)
    (by rw [Int.floor_eq_iff]
        constructor <;> norm_num)
    (by norm_num)
  rw [h]
  rw [show (((8866461766385663:ℤ)):ℚ) = (8866461766385663:ℚ) by norm_num]
  rw [show ⌊(8866461766385663:ℚ) * 2 ^ ((5:ℤ) - 52)⌋ = 62 from by
    rw [Int.floor_eq_iff]
    constructor <;> norm_num]
  rfl

/-- Counterexample to C6 as stated: with 90 loaded sequences the training
slice has `int(0.7 * 90) = 62` elements, not `⌊0.7 · 90⌋ = 63`. -/
theorem split_size_floor_counterexample :
    ((splitData (List.replicate 90 "A") (List.replicate 90 [[1]])
        (List.range 90)).train_indices.length = 62) ∧ (7 * 90) / 10 = 63 := by
  constructor
  · rw [splitData_train_indices, List.length_take, List.length_range,
      List.length_replicate, train_end_90]
    omega
  · norm_num

/-- Witness for the amended C6 on a concrete two-element dataset with the
shuffled index list `[1, 0]`. -/
theorem split_partition_witness :
    (splitData ["A", "B"] [[[1]], [[0]]] [1, 0]).train_indices ++
      (splitData ["A", "B"] [[[1]], [[0]]] [1, 0]).val_indices ++
      (splitData ["A", "B"] [[[1]], [[0]]] [1, 0]).test_indices = [1, 0] :=
  (split_partition ["A", "B"] [[[1]], [[0]]] [1, 0] (by simp)
    (by decide)).1

/-! ## find_similar_structures (cell 25) -/

/-- `sum(a == b for a, b in zip(sequence[:m], seq[:m]))` — `zip` already stops
at the shorter list, so the slices are immaterial. -/
def countMatches (s t : List Char) : ℕ :=
  (s.zip t).countP fun p => p.1 == p.2

/-- `matches / min_len` (exact; the float division differs only beyond any
realisable sequence length). -/
def similarity (s t : List Char) : ℚ :=
  (countMatches s t : ℚ) / (min s.length t.length : ℚ)

/-- `cmap[:k, :k]` — numpy slicing truncates and never pads. -/
def truncMap (m : CMap) (k : ℕ) : CMap :=
  (m.take k).map fun row => row.take k

/-- The loop of `find_similar_structures`: collect, in order, the truncated
contact maps of the database sequences whose similarity exceeds the
threshold.  `none` models the `ZeroDivisionError` raised when a comparison
has an empty common prefix (`min_len = 0`). -/
def collectSimilar (sequence : List Char) (threshold : ℚ) :
    List (List Char × CMap) → Option (List CMap)
  | [] => some []
  | (seq, cmap) :: rest =>
    if min sequence.length seq.length = 0 then none
    else
      match collectSimilar sequence threshold rest with
      | none => none
      | some l =>
        if threshold < similarity sequence seq
        then some (truncMap cmap sequence.length :: l)
        else some l

/-- Elementwise sum of two numpy arrays of one shape. -/
def matAdd (a b : CMap) : CMap :=
  List.zipWith (List.zipWith (· + ·)) a b

/-- Multiplication of every element by a scalar. -/
def matScale (c : ℚ) (m : CMap) : CMap :=
  m.map fun row => row.map fun v => c * v

/-- The numpy shape of a list-of-rows array (row count and all row lengths). -/
def shape2 (m : CMap) : ℕ × List ℕ :=
  (m.length, m.map List.length)

/-- `np.mean(structs, axis=0)`: defined when all arrays share one shape
(numpy raises on a ragged stack); sums elementwise and divides by the count. -/
def npMeanAxis0 : List CMap → Option CMap
  | [] => none
  | m :: rest =>
    if rest.all fun x => shape2 x == shape2 m then
      some (matScale (1 / ((rest.length + 1 : ℕ) : ℚ)) (rest.foldl matAdd m))
    else none

/-- `np.zeros((n, n))`. -/
def zeroMat (n : ℕ) : CMap :=
  List.replicate n (List.replicate n 0)

/-- `find_similar_structures(sequence, sequences, contact_maps, threshold)`;
the Python default threshold is the double `0.3`.  `none` models an uncaught
exception (`ZeroDivisionError`, or numpy rejecting a ragged `np.mean`). -/
def find_similar_structures (sequence : String) (sequences : List String)
    (contact_maps : List CMap) (threshold : ℚ) : Option CMap :=
  let seq_len := sequence.length
  match collectSimilar sequence.toList threshold
      ((sequences.map String.toList).zip contact_maps) with
  | none => none
  | some [] => some (zeroMat seq_len)
  | some (m :: rest) =>
    match npMeanAxis0 (m :: rest) with
    | none => none
    | some agg =>
      if agg.length ≠ seq_len then some (truncMap agg seq_len) else some agg

/-- A numpy array with `k` rows, every row of length `k`. -/
def IsShape (m : CMap) (k : ℕ) : Prop :=
  m.length = k ∧ ∀ i, ∀ h : i < m.length, (m.get ⟨i, h⟩).length = k

theorem collectSimilar_eq (sequence : List Char) (threshold : ℚ)
    (pairs : List (List Char × CMap))
    (h : ∀ p ∈ pairs, ¬ min sequence.length p.1.length = 0) :
    collectSimilar sequence threshold pairs =
      some ((pairs.filter fun p =>
          decide (threshold < similarity sequence p.1)).map
        fun p => truncMap p.2 sequence.length) := by
  induction pairs with
  | nil => rfl
  | cons p rest ih =>
    obtain ⟨seq, cmap⟩ := p
    have hmin := h (seq, cmap) (List.mem_cons_self _ _)
    rw [show collectSimilar sequence threshold ((seq, cmap) :: rest) =
        (if min sequence.length seq.length = 0 then none
         else
           match collectSimilar sequence threshold rest with
           | none => none
           | some l =>
             if threshold < similarity sequence seq
             then some (truncMap cmap sequence.length :: l)
             else some l) from rfl]
    rw [if_neg hmin, ih fun q hq => h q (List.mem_cons_of_mem _ hq)]
    dsimp only
    rw [List.filter_cons]
    by_cases hthr : threshold < similarity sequence seq
    · rw [if_pos hthr, if_pos (by simpa using hthr)]
      rfl
    · rw [if_neg hthr, if_neg (by simpa using hthr)]

theorem truncMap_shape (m : CMap) (k : ℕ) (hm : k ≤ m.length)
    (hrow : ∀ i, ∀ h : i < m.length, k ≤ (m.get ⟨i, h⟩).length) :
    IsShape (truncMap m k) k := by
  constructor
  · simp [truncMap]
    omega
  · intro i hi
    have hi2 : i < m.length := by
      simp [truncMap] at hi
      omega
    unfold truncMap
    rw [List.get_eq_getElem, List.getElem_map, List.getElem_take]
    simp only [List.length_take]
    have h3 : k ≤ m[i].length := by simpa using hrow i hi2
    omega

theorem entry_out_of_rows (m : CMap) (i j : ℕ) (h : m.length ≤ i) :
    entry m i j = 0 := by
  unfold entry
  rw [List.getD_eq_default _ _ h]
  simp

theorem entry_in (m : CMap) (i : ℕ) (h : i < m.length) (j : ℕ) :
    entry m i j = (m.get ⟨i, h⟩).getD j 0 := by
  unfold entry
  rw [List.getD_eq_getElem _ _ h, List.get_eq_getElem]

theorem getD_map_mul (c : ℚ) (row : List ℚ) (j : ℕ) :
    (row.map fun v => c * v).getD j 0 = c * row.getD j 0 := by
  by_cases hj : j < row.length
  · rw [List.getD_eq_getElem _ _ (by simpa using hj), List.getElem_map,
      List.getD_eq_getElem _ _ hj]
  · rw [List.getD_eq_default _ _ (by simpa using not_lt.mp hj),
      List.getD_eq_default _ _ (not_lt.mp hj)]
    ring

theorem getD_zipWith_add (r s : List ℚ) (j : ℕ) (hlen : r.length = s.length) :
    (List.zipWith (· + ·) r s).getD j 0 = r.getD j 0 + s.getD j 0 := by
  by_cases hj : j < r.length
  · rw [List.getD_eq_getElem _ _ (by rw [List.length_zipWith]; omega),
      List.getElem_zipWith, List.getD_eq_getElem _ _ hj,
      List.getD_eq_getElem _ _ (by omega)]
  · rw [List.getD_eq_default _ _ (by rw [List.length_zipWith]; omega),
      List.getD_eq_default _ _ (not_lt.mp hj),
      List.getD_eq_default _ _ (by omega)]
    ring

theorem entry_matScale (c : ℚ) (m : CMap) (i j : ℕ) :
    entry (matScale c m) i j = c * entry m i j := by
  by_cases hi : i < m.length
  · rw [entry_in _ i (by simpa [matScale] using hi) j, entry_in m i hi j]
    unfold matScale
    rw [List.get_eq_getElem, List.getElem_map, List.get_eq_getElem]
    exact getD_map_mul c _ j
  · rw [entry_out_of_rows _ i j (by simpa [matScale] using not_lt.mp hi),
      entry_out_of_rows m i j (not_lt.mp hi)]
    ring

theorem matScale_shape (c : ℚ) (m : CMap) (k : ℕ) (hm : IsShape m k) :
    IsShape (matScale c m) k := by
  constructor
  · simp [matScale, hm.1]
  · intro i hi
    have hi2 : i < m.length := by simpa [matScale] using hi
    unfold matScale
    rw [List.get_eq_getElem, List.getElem_map, List.length_map]
    have := hm.2 i hi2
    simpa using this

theorem matAdd_length (a b : CMap) : (matAdd a b).length = min a.length b.length :=
  List.length_zipWith _ a b

theorem entry_matAdd (a b : CMap) (k : ℕ) (ha : IsShape a k) (hb : IsShape b k)
    (i j : ℕ) : entry (matAdd a b) i j = entry a i j + entry b i j := by
  by_cases hi : i < k
  · have hia : i < a.length := by rw [ha.1]; exact hi
    have hib : i < b.length := by rw [hb.1]; exact hi
    have hiadd : i < (matAdd a b).length := by
      rw [matAdd_length]
      omega
    rw [entry_in _ i hiadd j, entry_in a i hia j, entry_in b i hib j]
    unfold matAdd
    rw [List.get_eq_getElem, List.getElem_zipWith]
    rw [getD_zipWith_add _ _ j ?_]
    · rw [List.get_eq_getElem, List.get_eq_getElem]
    · have e1 : a[i].length = k := by simpa using ha.2 i hia
      have e2 : b[i].length = k := by simpa using hb.2 i hib
      rw [e1, e2]
  · have hna : a.length ≤ i := by rw [ha.1]; omega
    have hnb : b.length ≤ i := by rw [hb.1]; omega
    rw [entry_out_of_rows _ i j (by rw [matAdd_length]; omega),
      entry_out_of_rows a i j hna, entry_out_of_rows b i j hnb]
    ring

theorem matAdd_shape (a b : CMap) (k : ℕ) (ha : IsShape a k) (hb : IsShape b k) :
    IsShape (matAdd a b) k := by
  constructor
  · rw [matAdd_length, ha.1, hb.1]
    omega
  · intro i hi
    have hi2 : i < a.length := by
      rw [matAdd_length] at hi
      omega
    have hi3 : i < b.length := by
      rw [matAdd_length] at hi
      omega
    unfold matAdd
    rw [List.get_eq_getElem, List.getElem_zipWith, List.length_zipWith]
    have e1 : a[i].length = k := by simpa using ha.2 i hi2
    have e2 : b[i].length = k := by simpa using hb.2 i hi3
    rw [e1, e2]
    omega

theorem foldl_matAdd_spec (k : ℕ) : ∀ (ms : List CMap) (acc : CMap),
    IsShape acc k → (∀ m ∈ ms, IsShape m k) →
    IsShape (ms.foldl matAdd acc) k ∧
    ∀ i j, entry (ms.foldl matAdd acc) i j =
      entry acc i j + ((ms.map fun m => entry m i j).sum) := by
  intro ms
  induction ms with
  | nil =>
    intro acc hacc _
    refine ⟨hacc, ?_⟩
    intro i j
    simp
  | cons m rest ih =>
    intro acc hacc hms
    have hm := hms m (List.mem_cons_self _ _)
    have h1 := ih (matAdd acc m) (matAdd_shape acc m k hacc hm)
      (fun x hx => hms x (List.mem_cons_of_mem _ hx))
    constructor
    · simpa [List.foldl_cons] using h1.1
    · intro i j
      rw [List.foldl_cons, h1.2 i j, entry_matAdd acc m k hacc hm]
      rw [List.map_cons, List.sum_cons]
      ring

theorem npMeanAxis0_eq (m : CMap) (rest : List CMap) (k : ℕ)
    (hm : IsShape m k) (hrest : ∀ x ∈ rest, IsShape x k) :
    ∃ r, npMeanAxis0 (m :: rest) = some r ∧ IsShape r k ∧
      ∀ i j, entry r i j =
        ((m :: rest).map fun x => entry x i j).sum / (((m :: rest).length : ℕ) : ℚ) := by
  have hshape2 : ∀ x, IsShape x k → shape2 x = shape2 m := by
    intro x hx
    unfold shape2
    rw [hx.1, hm.1]
    have hmap : x.map List.length = m.map List.length := by
      apply List.ext_getElem
      · simp [hx.1, hm.1]
      · intro i h1 h2
        rw [List.getElem_map, List.getElem_map]
        have hb1 : i < x.length := by simpa using h1
        have hb2 : i < m.length := by simpa using h2
        have e1 : x[i].length = k := by simpa using hx.2 i hb1
        have e2 : m[i].length = k := by simpa using hm.2 i hb2
        rw [e1, e2]
    rw [hmap]
  have hall : (rest.all fun x => shape2 x == shape2 m) = true := by
    rw [List.all_eq_true]
    intro x hx
    have := hshape2 x (hrest x hx)
    simpa using this
  have hnp : npMeanAxis0 (m :: rest) =
      some (matScale (1 / ((rest.length + 1 : ℕ) : ℚ)) (rest.foldl matAdd m)) := by
    rw [show npMeanAxis0 (m :: rest) =
        (if rest.all fun x => shape2 x == shape2 m then
          some (matScale (1 / ((rest.length + 1 : ℕ) : ℚ)) (rest.foldl matAdd m))
        else none) from rfl]
    rw [if_pos hall]
  obtain ⟨hs, he⟩ := foldl_matAdd_spec k rest m hm hrest
  refine ⟨_, hnp, matScale_shape _ _ k hs, ?_⟩
  intro i j
  rw [entry_matScale, he i j, List.map_cons, List.sum_cons]
  rw [show (m :: rest).length = rest.length + 1 from rfl]
  rw [one_div, inv_mul_eq_div]

theorem find_eq (sequence : String) (sequences : List String)
    (contact_maps : List CMap) (threshold : ℚ) :
    find_similar_structures sequence sequences contact_maps threshold =
      match collectSimilar sequence.toList threshold
          ((sequences.map String.toList).zip contact_maps) with
      | none => none
      | some [] => some (zeroMat sequence.toList.length)
      | some (m :: rest) =>
        match npMeanAxis0 (m :: rest) with
        | none => none
        | some agg =>
          if agg.length ≠ sequence.toList.length then
            some (truncMap agg sequence.toList.length)
          else some agg := rfl

theorem IsShape_rows (r : CMap) (k : ℕ) (h : IsShape r k) :
    ∀ row ∈ r, row.length = k := by
  intro row hrow
  obtain ⟨⟨i, hi⟩, rfl⟩ := List.mem_iff_get.mp hrow
  exact h.2 i hi

/-- C2 (amended): provided every pairwise comparison has a nonempty common
prefix (otherwise `ZeroDivisionError`), the contact maps match their
sequences, and every database sequence above the threshold is at least as
long as the input (otherwise the truncated maps are smaller or ragged and
`np.mean` misbehaves, cf. the C9 analysis), `find_similar_structures`
returns the element-wise mean of the truncated contact maps of exactly the
database sequences whose similarity exceeds the threshold, and the all-zeros
`(len, len)` matrix when there is none. -/
theorem similarity_aggregation (sequence : String) (sequences : List String)
    (contact_maps : List CMap) (threshold : ℚ)
    (hne : sequence.toList ≠ [])
    (hmin : ∀ p ∈ (sequences.map String.toList).zip contact_maps, p.1 ≠ [])
    (hpar : ∀ p ∈ (sequences.map String.toList).zip contact_maps,
      p.2.length = p.1.length ∧
        ∀ i, ∀ h : i < p.2.length, (p.2.get ⟨i, h⟩).length = p.1.length)
    (hsel : ∀ p ∈ (sequences.map String.toList).zip contact_maps,
      threshold < similarity sequence.toList p.1 →
        sequence.length ≤ p.1.length) :
    (((sequences.map String.toList).zip contact_maps).filter (fun p =>
        decide (threshold < similarity sequence.toList p.1)) = [] →
      find_similar_structures sequence sequences contact_maps threshold =
        some (zeroMat sequence.length)) ∧
    ∀ q rest, ((sequences.map String.toList).zip contact_maps).filter (fun p =>
        decide (threshold < similarity sequence.toList p.1)) = q :: rest →
      ∃ r, find_similar_structures sequence sequences contact_maps threshold =
          some r ∧
        r.length = sequence.length ∧
        (∀ row ∈ r, row.length = sequence.length) ∧
        ∀ i j, entry r i j =
          ((q :: rest).map fun p =>
            entry (truncMap p.2 sequence.length) i j).sum /
            (((q :: rest).length : ℕ) : ℚ) := by
  have hsl : sequence.length = sequence.toList.length := rfl
  rw [hsl]
  have hminNe : ∀ p ∈ (sequences.map String.toList).zip contact_maps,
      ¬ min sequence.toList.length p.1.length = 0 := by
    intro p hp
    have h1 : sequence.toList.length ≠ 0 := fun hc => hne (List.length_eq_zero.mp hc)
    have h2 : p.1.length ≠ 0 := fun hc => hmin p hp (List.length_eq_zero.mp hc)
    omega
  have hcoll := collectSimilar_eq sequence.toList threshold
    ((sequences.map String.toList).zip contact_maps) hminNe
  have hshape : ∀ p ∈ ((sequences.map String.toList).zip contact_maps).filter
      (fun p => decide (threshold < similarity sequence.toList p.1)),
      IsShape (truncMap p.2 sequence.toList.length) sequence.toList.length := by
    intro p hp
    have hpmem : p ∈ (sequences.map String.toList).zip contact_maps :=
      List.mem_of_mem_filter hp
    have hsim : threshold < similarity sequence.toList p.1 := by
      have := List.of_mem_filter hp
      simpa using this
    have hlen := hsel p hpmem hsim
    obtain ⟨hL, hR⟩ := hpar p hpmem
    apply truncMap_shape
    · omega
    · intro i h
      rw [hR i h]
      omega
  constructor
  · intro hfil
    rw [hfil] at hcoll
    simp only [List.map_nil] at hcoll
    rw [find_eq, hcoll]
  · intro q rest hfil
    rw [hfil] at hcoll
    rw [List.map_cons] at hcoll
    obtain ⟨r, hnp, hrs, hre⟩ := npMeanAxis0_eq (truncMap q.2 sequence.toList.length)
      (rest.map fun p => truncMap p.2 sequence.toList.length) sequence.toList.length
      (hshape q (by rw [hfil]; exact List.mem_cons_self _ _))
      (by
        intro x hx
        obtain ⟨p, hp, rfl⟩ := List.mem_map.mp hx
        exact hshape p (by rw [hfil]; exact List.mem_cons_of_mem _ hp))
    refine ⟨r, ?_, hrs.1, IsShape_rows r _ hrs, ?_⟩
    · rw [find_eq, hcoll]
      dsimp only
      rw [hnp]
      simp [hrs.1]
    · intro i j
      rw [hre i j]
      congr 1
      · simp only [List.map_cons, List.map_map]
        rfl
      · simp

/-- Counterexample to C2 as stated: on the empty input sequence the very
first similarity computation divides by `min(0, 1) = 0`, so the function
raises `ZeroDivisionError` (modelled as `none`) and returns no matrix at
all. -/
theorem similarity_aggregation_counterexample :
    find_similar_structures "" ["A"] [[[1]]] (3 / 10) = none := rfl

/-- Witness for the amended C2: one database sequence identical to the
input; its contact map is returned unchanged as the mean. -/
theorem similarity_aggregation_witness :
    ∃ r, find_similar_structures "AB" ["AB"] [[[1, 0], [0, 1]]] (3 / 10) =
        some r ∧
      r.length = 2 ∧ entry r 0 0 = 1 ∧ entry r 0 1 = 0 := by
  have hpairs : (["AB"].map String.toList).zip [[[(1:ℚ), 0], [0, 1]]] =
      [(['A', 'B'], [[(1:ℚ), 0], [0, 1]])] := rfl
  have hsim : similarity "AB".toList ['A', 'B'] = 1 := by
    unfold similarity countMatches
    norm_num [List.zip, List.countP, List.countP.go]
  have hfil : ((["AB"].map String.toList).zip [[[(1:ℚ), 0], [0, 1]]]).filter
      (fun p => decide ((3:ℚ)/10 < similarity "AB".toList p.1)) =
      [(['A', 'B'], [[(1:ℚ), 0], [0, 1]])] := by
    rw [hpairs, List.filter_cons]
    rw [if_pos (by rw [hsim]; norm_num)]
    rfl
  have h := (similarity_aggregation "AB" ["AB"] [[[(1:ℚ), 0], [0, 1]]] (3/10)
    (by simp)
    (by
      rw [hpairs]
      intro p hp
      simp at hp
      subst hp
      simp)
    (by
      rw [hpairs]
      intro p hp
      simp at hp
      subst hp
      constructor
      · rfl
      · intro i h
        simp at h
        interval_cases i <;> rfl)
    (by
      rw [hpairs]
      intro p hp _
      simp at hp
      subst hp
      rfl)).2
    (['A', 'B'], [[(1:ℚ), 0], [0, 1]]) [] hfil
  obtain ⟨r, hr, hlen, hrows, hent⟩ := h
  have htr : truncMap [[(1:ℚ), 0], [0, 1]] "AB".length = [[(1:ℚ), 0], [0, 1]] := rfl
  refine ⟨r, hr, hlen.trans rfl, ?_, ?_⟩
  · rw [hent 0 0]
    simp only [List.map_cons, List.map_nil, List.sum_cons, List.sum_nil, htr,
      List.length_cons, List.length_nil]
    rw [show entry [[(1:ℚ), 0], [0, 1]] 0 0 = 1 from rfl]
    norm_num
  · rw [hent 0 1]
    simp only [List.map_cons, List.map_nil, List.sum_cons, List.sum_nil, htr,
      List.length_cons, List.length_nil]
    rw [show entry [[(1:ℚ), 0], [0, 1]] 0 1 = 0 from rfl]
    norm_num

/-- C9 (amended): under the same conditions as the aggregation theorem — in
particular that every database sequence above the threshold is at least as
long as the input — the returned array is square of side `len(sequence)`.
Without that condition the result can be smaller (see the counterexample):
`cmap[:n, :n]` truncates but never pads, and the post-hoc resize is again a
truncation. -/
theorem output_shape (sequence : String) (sequences : List String)
    (contact_maps : List CMap) (threshold : ℚ)
    (hne : sequence.toList ≠ [])
    (hmin : ∀ p ∈ (sequences.map String.toList).zip contact_maps, p.1 ≠ [])
    (hpar : ∀ p ∈ (sequences.map String.toList).zip contact_maps,
      p.2.length = p.1.length ∧
        ∀ i, ∀ h : i < p.2.length, (p.2.get ⟨i, h⟩).length = p.1.length)
    (hsel : ∀ p ∈ (sequences.map String.toList).zip contact_maps,
      threshold < similarity sequence.toList p.1 →
        sequence.length ≤ p.1.length) :
    ∃ r, find_similar_structures sequence sequences contact_maps threshold =
        some r ∧
      r.length = sequence.length ∧
      ∀ row ∈ r, row.length = sequence.length := by
  have hsl : sequence.length = sequence.toList.length := rfl
  rw [hsl]
  have hminNe : ∀ p ∈ (sequences.map String.toList).zip contact_maps,
      ¬ min sequence.toList.length p.1.length = 0 := by
    intro p hp
    have h1 : sequence.toList.length ≠ 0 := fun hc => hne (List.length_eq_zero.mp hc)
    have h2 : p.1.length ≠ 0 := fun hc => hmin p hp (List.length_eq_zero.mp hc)
    omega
  have hcoll := collectSimilar_eq sequence.toList threshold
    ((sequences.map String.toList).zip contact_maps) hminNe
  have hshape : ∀ p ∈ ((sequences.map String.toList).zip contact_maps).filter
      (fun p => decide (threshold < similarity sequence.toList p.1)),
      IsShape (truncMap p.2 sequence.toList.length) sequence.toList.length := by
    intro p hp
    have hpmem : p ∈ (sequences.map String.toList).zip contact_maps :=
      List.mem_of_mem_filter hp
    have hsim : threshold < similarity sequence.toList p.1 := by
      have := List.of_mem_filter hp
      simpa using this
    have hlen := hsel p hpmem hsim
    obtain ⟨hL, hR⟩ := hpar p hpmem
    apply truncMap_shape
    · omega
    · intro i h
      rw [hR i h]
      omega
  rcases hfe : ((sequences.map String.toList).zip contact_maps).filter
      (fun p => decide (threshold < similarity sequence.toList p.1)) with
    - | ⟨q, rest⟩
  · rw [hfe] at hcoll
    simp only [List.map_nil] at hcoll
    refine ⟨zeroMat sequence.toList.length, ?_, ?_, ?_⟩
    · rw [find_eq, hcoll]
    · simp [zeroMat]
    · intro row hrow
      rw [List.eq_of_mem_replicate hrow]
      simp
  · rw [hfe] at hcoll
    rw [List.map_cons] at hcoll
    obtain ⟨r, hnp, hrs, -⟩ := npMeanAxis0_eq (truncMap q.2 sequence.toList.length)
      (rest.map fun p => truncMap p.2 sequence.toList.length) sequence.toList.length
      (hshape q (by rw [hfe]; exact List.mem_cons_self _ _))
      (by
        intro x hx
        obtain ⟨p, hp, rfl⟩ := List.mem_map.mp hx
        exact hshape p (by rw [hfe]; exact List.mem_cons_of_mem _ hp))
    refine ⟨r, ?_, hrs.1, IsShape_rows r _ hrs⟩
    rw [find_eq, hcoll]
    dsimp only
    rw [hnp]
    simp [hrs.1]

/-- Counterexample to C9 as stated: a similar database sequence of length 3
for an input of length 5 yields a `3 × 3` result, not `5 × 5` — slicing
never pads, and the shape-fixing branch truncates again. -/
theorem output_shape_counterexample :
    (find_similar_structures "AAAAA" ["AAA"]
        [[[1, 1, 1], [1, 1, 1], [1, 1, 1]]] (3 / 10)).map List.length =
      some 3 := by
  have hsim : similarity "AAAAA".toList ['A', 'A', 'A'] = 1 := by
    unfold similarity countMatches
    norm_num [List.zip, List.countP, List.countP.go]
  have hcoll : collectSimilar "AAAAA".toList (3 / 10)
      ((["AAA"].map String.toList).zip [[[(1:ℚ), 1, 1], [1, 1, 1], [1, 1, 1]]]) =
      some [[[(1:ℚ), 1, 1], [1, 1, 1], [1, 1, 1]]] := by
    rw [collectSimilar_eq _ _ _ (by
      intro p hp
      simp at hp
      subst hp
      simp)]
    rw [show (["AAA"].map String.toList).zip [[[(1:ℚ), 1, 1], [1, 1, 1], [1, 1, 1]]] =
      [(['A', 'A', 'A'], [[(1:ℚ), 1, 1], [1, 1, 1], [1, 1, 1]])] from rfl]
    rw [List.filter_cons]
    rw [if_pos (by
      rw [show ((['A', 'A', 'A'], [[(1:ℚ), 1, 1], [1, 1, 1], [1, 1, 1]])).1 =
        ['A', 'A', 'A'] from rfl, hsim]
      norm_num)]
    rfl
  rw [find_eq, hcoll]
  dsimp only
  have hnp : npMeanAxis0 [[[(1:ℚ), 1, 1], [1, 1, 1], [1, 1, 1]]] =
      some (matScale (1 / ((1:ℕ) : ℚ)) [[(1:ℚ), 1, 1], [1, 1, 1], [1, 1, 1]]) := rfl
  rw [hnp]
  simp [matScale, truncMap]

/-- Witness for the amended C9 on the same concrete instance as C2. -/
theorem output_shape_witness :
    ∃ r, find_similar_structures "AB" ["AB"] [[[1, 0], [0, 1]]] (3 / 10) =
        some r ∧ r.length = 2 := by
  have hpairs : (["AB"].map String.toList).zip [[[(1:ℚ), 0], [0, 1]]] =
      [(['A', 'B'], [[(1:ℚ), 0], [0, 1]])] := rfl
  obtain ⟨r, hr, hlen, -⟩ := output_shape "AB" ["AB"] [[[(1:ℚ), 0], [0, 1]]] (3 / 10)
    (by simp)
    (by
      rw [hpairs]
      intro p hp
      simp at hp
      subst hp
      simp)
    (by
      rw [hpairs]
      intro p hp
      simp at hp
      subst hp
      constructor
      · rfl
      · intro i h
        simp at h
        interval_cases i <;> rfl)
    (by
      rw [hpairs]
      intro p hp _
      simp at hp
      subst hp
      rfl)
  exact ⟨r, hr, hlen.trans rfl⟩

/-! ## ContactPredictionModel (cell 20)

Tensors are modelled as total functions on indices; the dimensions are
tracked alongside (a function is read only inside its dims). -/

/-- A rank-3 tensor `(batch, i, d)`. -/
abbrev Tensor3 := ℕ → ℕ → ℕ → ℚ

/-- A rank-4 tensor. -/
abbrev Tensor4 := ℕ → ℕ → ℕ → ℕ → ℚ

/-- `t.unsqueeze(2)` on a `(B, L, D)` tensor: the new dim 2 has size 1. -/
def unsqueeze2 (t : Tensor3) : Tensor4 :=
  fun b i k d => if k = 0 then t b i d else 0

/-- `t.unsqueeze(1)` on a `(B, L, D)` tensor: the new dim 1 has size 1. -/
def unsqueeze1 (t : Tensor3) : Tensor4 :=
  fun b k j d => if k = 0 then t b j d else 0

/-- `t.repeat(r0, r1, r2, r3)` on a tensor of dims `(s0, s1, s2, s3)`: tiling;
the output at `(b, i, k, d)` reads the source at the indices modulo the
source dims (the repeat factors only enlarge the dims). -/
def repeat4 (t : Tensor4) (s0 s1 s2 s3 : ℕ) : Tensor4 :=
  fun b i k d => t (b % s0) (i % s1) (k % s2) (d % s3)

/-- `torch.cat([t, u], dim=-1)` where `t` has last-dim size `D`. -/
def cat4 (t u : Tensor4) (D : ℕ) : Tensor4 :=
  fun b i j d => if d < D then t b i j d else u b i j (d - D)

/-- `x.permute(0, 3, 1, 2)` (`contiguous` changes nothing observable). -/
def permute0312 (t : Tensor4) : Tensor4 :=
  fun b c i j => t b i j c

/-- `nn.Conv2d(inC, outC, kernel_size=k, padding=p)` with stride 1, applied
to one batch element: a channels-first image of spatial size `H × W` with
zero padding `p`; `w o c di dj` are the kernel weights, `bias` the per-output
channel bias. -/
def conv2d (w : ℕ → ℕ → ℕ → ℕ → ℚ) (bias : ℕ → ℚ) (inC k p H W : ℕ)
    (x : Tensor3) : Tensor3 :=
  fun o i j =>
    bias o + ∑ c ∈ Finset.range inC, ∑ di ∈ Finset.range k,
      ∑ dj ∈ Finset.range k,
        w o c di dj *
          (if p ≤ i + di ∧ i + di < H + p ∧ p ≤ j + dj ∧ j + dj < W + p
           then x c (i + di - p) (j + dj - p) else 0)

/-- Spatial output size of a stride-1 convolution, `(H + 2p - k) + 1`,
computed in `ℤ` as PyTorch does and clamped at `0`. -/
def convOutDim (H k p : ℕ) : ℕ :=
  ((H : ℤ) + 2 * p - k + 1).toNat

/-- The parameters of `ContactPredictionModel`: `conv1` is
`Conv2d(embedding_dim * 2, 64, kernel_size=3, padding=1)` and `conv2` is
`Conv2d(64, 1, kernel_size=3, padding=1)`. -/
structure ContactPredictionModel where
  embedding_dim : ℕ
  w1 : ℕ → ℕ → ℕ → ℕ → ℚ
  b1 : ℕ → ℚ
  w2 : ℕ → ℕ → ℕ → ℕ → ℚ
  b2 : ℕ → ℚ

/-- `ContactPredictionModel.forward` on an embedding of dims `(B, L, D)`.
`sig` abstracts the elementwise `torch.sigmoid` (its transcendental values
are not rational); every statement below holds for any elementwise `sig`. -/
def ContactPredictionModel.forward (m : ContactPredictionModel) (sig : ℚ → ℚ)
    (embedding : Tensor3) (B L : ℕ) : Tensor3 :=
  let D := m.embedding_dim
  let emb_i := repeat4 (unsqueeze2 embedding) B L 1 D
  let emb_j := repeat4 (unsqueeze1 embedding) B 1 L D
  let pairwise_emb := cat4 emb_i emb_j D
  let x := permute0312 pairwise_emb
  let c1 := fun b => conv2d m.w1 m.b1 (2 * D) 3 1 L L fun c i j => x b c i j
  let r := fun b c i j => max 0 (c1 b c i j)
  let c2 := fun b => conv2d m.w2 m.b2 64 3 1 (convOutDim L 3 1)
    (convOutDim L 3 1) fun c i j => r b c i j
  let sg := fun b c i j => sig (c2 b c i j)
  fun b i j => sg b 0 i j

/-- The dims of the `forward` output: batch, then twice the spatial size left
by the two stride-1 convolutions (the single channel of `conv2` is removed by
`squeeze(1)`). -/
def forwardDims (B L : ℕ) : ℕ × ℕ × ℕ :=
  (B, convOutDim (convOutDim L 3 1) 3 1, convOutDim (convOutDim L 3 1) 3 1)

theorem convOutDim_three_one (L : ℕ) : convOutDim L 3 1 = L := by
  unfold convOutDim
  omega

/-- C3: the pairwise feature tensor carries, at position `(i, j)`, the
concatenation of embedding row `i` with embedding row `j` (`2D` channels);
the forward pass applies exactly two `3×3`, padding-1 convolutions
(`2D → 64`, then `64 → 1`) with a ReLU between them and the sigmoid after;
and the output dims are `(batch, L, L)`. -/
theorem contact_prediction_forward (m : ContactPredictionModel) (sig : ℚ → ℚ)
    (embedding : Tensor3) (B L : ℕ) :
    (∀ b i j c, b < B → i < L → j < L → c < 2 * m.embedding_dim →
      cat4 (repeat4 (unsqueeze2 embedding) B L 1 m.embedding_dim)
          (repeat4 (unsqueeze1 embedding) B 1 L m.embedding_dim)
          m.embedding_dim b i j c =
        if c < m.embedding_dim then embedding b i c
        else embedding b j (c - m.embedding_dim)) ∧
    (∀ b i j, m.forward sig embedding B L b i j =
      sig (conv2d m.w2 m.b2 64 3 1 L L
        (fun c a e => max 0 (conv2d m.w1 m.b1 (2 * m.embedding_dim) 3 1 L L
          (fun cc aa ee =>
            cat4 (repeat4 (unsqueeze2 embedding) B L 1 m.embedding_dim)
              (repeat4 (unsqueeze1 embedding) B 1 L m.embedding_dim)
              m.embedding_dim b aa ee cc) c a e)) 0 i j)) ∧
    forwardDims B L = (B, L, L) := by
  refine ⟨?_, ?_, ?_⟩
  · intro b i j c hb hi hj hc
    unfold cat4 repeat4 unsqueeze2 unsqueeze1
    rw [Nat.mod_eq_of_lt hb, Nat.mod_eq_of_lt hi, Nat.mod_eq_of_lt hj,
      Nat.mod_one, Nat.mod_one]
    by_cases hcd : c < m.embedding_dim
    · rw [if_pos hcd, if_pos hcd, if_pos rfl, Nat.mod_eq_of_lt hcd]
    · rw [if_neg hcd, if_neg hcd, if_pos rfl,
        Nat.mod_eq_of_lt (by omega : c - m.embedding_dim < m.embedding_dim)]
  · intro b i j
    show sig (conv2d m.w2 m.b2 64 3 1 (convOutDim L 3 1) (convOutDim L 3 1)
      (fun c a e => max 0 (conv2d m.w1 m.b1 (2 * m.embedding_dim) 3 1 L L
        (fun cc aa ee =>
          permute0312 (cat4 (repeat4 (unsqueeze2 embedding) B L 1 m.embedding_dim)
            (repeat4 (unsqueeze1 embedding) B 1 L m.embedding_dim)
            m.embedding_dim) b cc aa ee) c a e)) 0 i j) = _
    rw [convOutDim_three_one]
    rfl
  · unfold forwardDims
    rw [convOutDim_three_one, convOutDim_three_one]

/-- Witness for C3 on a one-element batch with `L = D = 1`, zero weights, a
constant embedding and the identity in place of the sigmoid. -/
theorem contact_prediction_forward_witness :
    cat4 (repeat4 (unsqueeze2 fun _ _ _ => (5:ℚ)) 1 1 1 1)
        (repeat4 (unsqueeze1 fun _ _ _ => (5:ℚ)) 1 1 1 1) 1 0 0 0 0 = 5 := by
  have h := (contact_prediction_forward
    ⟨1, fun _ _ _ _ => 0, fun _ => 0, fun _ _ _ _ => 0, fun _ => 0⟩
    id (fun _ _ _ => (5:ℚ)) 1 1).1 0 0 0 0
    (by norm_num) (by norm_num) (by norm_num) (by norm_num)
  simpa using h

end ESM2Pipeline
